import Mathlib

/-!
# Verification of the sync-tauri upload pipeline

Shallow embedding of the upload pipeline of `src-tauri/src/upload.rs` and the
progress-state initialization of `src-tauri/src/lib.rs`, together with proofs
settling the specification claims about them.

Conventions used throughout:
* Rust `u64`/`u32`/`usize` values are modelled as `Nat`; the only subtraction
  the code performs (`current_time - item.timestamp * 1000`) is guarded in the
  theorems by the hypothesis that enqueue timestamps are not in the future, the
  regime in which Rust `u64` subtraction and `Nat` subtraction agree.
* Rust `String` paths are modelled as `String`; the byte-level string
  manipulation of `get_relative_path` is modelled over `List Char`.
* File bodies are lists of bytes, each byte a `Nat` reduced mod 256 where the
  Rust type is `u8`.
* The HTTP layer, the filesystem and the glob library are external
  collaborators: they enter the model as explicit inputs (server responses,
  read oracles, parse/match functions), never as stubs of repository code.
-/

namespace SyncTauri

/-! ## Constants (upload.rs lines 13-38) -/

def MAX_BATCH_SIZE : Nat := 1000
def QUEUE_PROCESSING_INTERVAL_MS : Nat := 200
def MAX_RETRY_COUNT : Nat := 3
def RETRY_DELAY_SECS : Nat := 5
def STATUS_EXISTS : String := "exists"
def STATUS_NEEDS_UPLOAD : String := "needs_upload"
def STATUS_IGNORED : String := "ignored"
def STATUS_QUEUED : String := "queued"
def STATUS_UPLOADED : String := "uploaded"
def STATUS_FAILED : String := "failed"

/-! ## Data model (upload.rs lines 40-149) -/

/-- `UploadItem` (upload.rs lines 68-74). -/
structure UploadItem where
  path : String
  relative_path : String
  timestamp : Nat
  retry_count : Nat
deriving DecidableEq, Repr

/-- `FileCheckResult` (upload.rs lines 116-123): one per-file verdict of the
batch probe response. -/
structure FileCheckResult where
  file_name : String
  crc32c : Option String
  status : String
  file_id : String
  upload_url : Option String
deriving DecidableEq, Repr

/-- `FileUploadStatus` (upload.rs lines 140-145). -/
structure FileUploadStatus where
  relative_path : String
  status : String
  error : Option String
deriving DecidableEq, Repr

/-- `UploadProgress` (upload.rs lines 132-138). -/
structure UploadProgress where
  total_queued : Nat
  total_uploaded : Nat
  total_failed : Nat
  current_uploading : Option String
deriving DecidableEq, Repr

/-! ## Ingestion enqueue (upload.rs lines 385-422)

`add_to_upload_queue_with_event_type`, once the item passes the
enabled/ignore/metadata checks, builds `UploadItem { path, relative_path,
timestamp = now_seconds, retry_count = 0 }`, removes every queued entry with
the same path (`queue.retain(|item| item.path != upload_item.path)`) and
appends the new item (`queue.push_back`). -/

def ingestEnqueue (queue : List UploadItem) (path relative : String)
    (nowSecs : Nat) : List UploadItem :=
  queue.filter (fun it => it.path != path) ++
    [{ path := path, relative_path := relative, timestamp := nowSecs,
       retry_count := 0 }]

/-- Number of queue entries whose path equals `p`. -/
def countPath (queue : List UploadItem) (p : String) : Nat :=
  (queue.filter (fun it => it.path == p)).length

/-- The per-path uniqueness invariant of the specification. -/
def uniquePaths (queue : List UploadItem) : Prop :=
  ∀ p : String, countPath queue p ≤ 1

/-! ## Ready-item drain (upload.rs lines 625-663)

The scheduler walks the queue in order, collects (and removes) every item with
`current_time - item.timestamp * 1000 >= config.upload_delay_ms` and stops
scanning once `MAX_BATCH_SIZE` ready items are collected; later items stay in
place. `cap` counts the remaining batch capacity. -/

def drainReadyAux (nowMs delayMs : Nat) :
    Nat → List UploadItem → List UploadItem × List UploadItem
  | _, [] => ([], [])
  | 0, rest => ([], rest)
  | cap + 1, it :: rest =>
    if nowMs - it.timestamp * 1000 ≥ delayMs then
      let (r, q) := drainReadyAux nowMs delayMs cap rest
      (it :: r, q)
    else
      let (r, q) := drainReadyAux nowMs delayMs (cap + 1) rest
      (r, it :: q)

/-- `(ready, remaining)` of one scheduler drain. -/
def drainReady (nowMs delayMs : Nat) (queue : List UploadItem) :
    List UploadItem × List UploadItem :=
  drainReadyAux nowMs delayMs MAX_BATCH_SIZE queue

/-! ## Probe-failure branch (upload.rs lines 682-697)

When `get_presigned_urls_batch` returns `Err`, the scheduler pushes every item
of the ready batch back (`queue.push_back(item)` in batch order, values
untouched), emits no `file_upload_status` event in this branch, and sleeps
`RETRY_DELAY_SECS` before the next iteration. -/

structure ProbeFailOutcome where
  queue : List UploadItem
  statusEvents : List FileUploadStatus
  sleepSecs : Nat
deriving DecidableEq, Repr

def onProbeFailure (queue readyItems : List UploadItem) : ProbeFailOutcome :=
  { queue := queue ++ readyItems
    statusEvents := []
    sleepSecs := RETRY_DELAY_SECS }

/-! ## Retry handling after a failed PUT (upload.rs lines 779-821)

On `Err` from `upload_file` the spawned task executes `item.retry_count += 1`;
if the incremented count is `< MAX_RETRY_COUNT` the item is pushed back with
`timestamp` refreshed to the current seconds, otherwise a terminal `failed`
status is emitted and `total_failed` is bumped (no re-append). -/

def handlePutFailure (item : UploadItem) (nowSecs : Nat) : Option UploadItem :=
  let rc := item.retry_count + 1
  if rc < MAX_RETRY_COUNT then
    some { path := item.path, relative_path := item.relative_path,
           timestamp := nowSecs, retry_count := rc }
  else
    none

/-! ## Batch probe client (upload.rs lines 219-327)

`get_presigned_urls_batch` first reads each item's file: items whose
`tokio::fs::read` fails are skipped with a warning (they join neither
`valid_items` nor the request body); items that read successfully are kept in
order. The filesystem is an external collaborator, modelled as a `readOk`
oracle on absolute paths. After a successful POST, each entry of the server's
`files` response array is paired with the first element of `valid_items` whose
`relative_path` equals the entry's `file_name`
(`valid_items.iter().find(|i| i.relative_path == result.file_name)`);
response entries without a matching valid item, and valid items matched by no
response entry, produce no pair. -/

def probeValidItems (readOk : String → Bool) (items : List UploadItem) :
    List UploadItem :=
  items.filter (fun it => readOk it.path)

def matchResults (validItems : List UploadItem)
    (responseFiles : List FileCheckResult) :
    List (UploadItem × FileCheckResult) :=
  responseFiles.filterMap (fun result =>
    (validItems.find? (fun i => i.relative_path == result.file_name)).map
      (fun i => (i, result)))

/-! ## Batch-result processing (upload.rs lines 700-832)

For each `(item, result)` pair: `status == "exists"` emits an `uploaded`
status and bumps `total_uploaded`; `status == "needs_upload"` without an
`upload_url` pushes the item back unchanged; `status == "needs_upload"` with a
URL spawns an upload task for `(item, url, file_id)`; any other status does
nothing. The record collects, in loop order, the re-appended items, the
relative paths given an `uploaded` status via the `exists` path, and the
spawned uploads. -/

structure BatchOutcome where
  requeued : List UploadItem
  uploadedNow : List String
  spawned : List (UploadItem × String × String)
deriving DecidableEq, Repr

def processBatchResults :
    List (UploadItem × FileCheckResult) → BatchOutcome
  | [] => { requeued := [], uploadedNow := [], spawned := [] }
  | (item, result) :: rest =>
    let o := processBatchResults rest
    if result.status = STATUS_EXISTS then
      { o with uploadedNow := item.relative_path :: o.uploadedNow }
    else if result.status = STATUS_NEEDS_UPLOAD then
      match result.upload_url with
      | none => { o with requeued := item :: o.requeued }
      | some url =>
        { o with spawned := (item, url, result.file_id) :: o.spawned }
    else o

/-! ## Queue transition system

The queue (`UploadQueue = Arc<Mutex<VecDeque<UploadItem>>>`, initially empty
— lib.rs line 461) is mutated only by: the ingestion enqueue, the scheduler
drain, the three scheduler re-append paths (probe failure, missing URL, retry
— all plain `push_back` of an item previously drained, the retry one guarded
by `handlePutFailure`), removal of a drained item on any terminal outcome, and
`clear_upload_queue`. `inflight` is the multiset of items drained from the
queue and not yet resolved; the mutex is released between steps, so steps
interleave arbitrarily. -/

structure SchedState where
  queue : List UploadItem
  inflight : List UploadItem
deriving DecidableEq, Repr

inductive QStep : SchedState → SchedState → Prop
  | ingest (q f : List UploadItem) (p r : String) (now : Nat) :
      QStep ⟨q, f⟩ ⟨ingestEnqueue q p r now, f⟩
  | drain (q f : List UploadItem) (now delay : Nat) :
      QStep ⟨q, f⟩ ⟨(drainReady now delay q).2, f ++ (drainReady now delay q).1⟩
  | requeueUnchanged (q f1 f2 : List UploadItem) (it : UploadItem) :
      QStep ⟨q, f1 ++ it :: f2⟩ ⟨q ++ [it], f1 ++ f2⟩
  | finishInflight (q f1 f2 : List UploadItem) (it : UploadItem) :
      QStep ⟨q, f1 ++ it :: f2⟩ ⟨q, f1 ++ f2⟩
  | retryRequeue (q f1 f2 : List UploadItem) (it it' : UploadItem) (now : Nat)
      (h : handlePutFailure it now = some it') :
      QStep ⟨q, f1 ++ it :: f2⟩ ⟨q ++ [it'], f1 ++ f2⟩
  | clearQueue (q f : List UploadItem) :
      QStep ⟨q, f⟩ ⟨[], f⟩

/-- States reachable from the initial empty queue (lib.rs line 461). -/
def QReachable (s : SchedState) : Prop :=
  Relation.ReflTransGen QStep ⟨[], []⟩ s

/-! ## Progress state (lib.rs lines 463-468, upload.rs lines 666-673,
716-721, 770-777, 812-820, 862-868)

`UploadProgress` is created once with all counters `0` and
`current_uploading: None`. The only mutations in the whole crate are the four
below; `get_upload_progress` returns a clone of the current state, and every
`upload_progress` event payload is the state right after a mutation. -/

def initialUploadProgress : UploadProgress :=
  { total_queued := 0, total_uploaded := 0, total_failed := 0,
    current_uploading := none }

inductive ProgressOp
  | publishQueued (queueLen : Nat)
  | existsUploaded
  | putUploaded (queueLen : Nat)
  | putFailed (queueLen : Nat)

def applyProgressOp (p : UploadProgress) : ProgressOp → UploadProgress
  | .publishQueued n => { p with total_queued := n }
  | .existsUploaded => { p with total_uploaded := p.total_uploaded + 1 }
  | .putUploaded n =>
      { p with total_uploaded := p.total_uploaded + 1, total_queued := n }
  | .putFailed n =>
      { p with total_failed := p.total_failed + 1, total_queued := n }

def runProgressOps (ops : List ProgressOp) : UploadProgress :=
  ops.foldl applyProgressOp initialUploadProgress

/-! ## Ignore matcher (upload.rs lines 170-179)

`should_ignore_file` loops over the configured patterns; each is handed to
`glob::Pattern::new` — an external library call returning `Result`, modelled
as an abstract `parse : String → Option P` — and, when parsing succeeds, to
`Pattern::matches` (abstract `pmatch`). The first valid pattern that matches
returns `true`; parse failures and non-matches fall through; an exhausted loop
returns `false`. -/

def should_ignore_file {P : Type} (parse : String → Option P)
    (pmatch : P → String → Bool) (file_path : String) :
    List String → Bool
  | [] => false
  | pattern :: rest =>
    match parse pattern with
    | some globPattern =>
      if pmatch globPattern file_path then true
      else should_ignore_file parse pmatch file_path rest
    | none => should_ignore_file parse pmatch file_path rest

/-! ## Relative-path resolver, lexical fallback (upload.rs lines 198-207)

When canonicalization of either input fails (a filesystem outcome outside the
model), `get_relative_path` falls back to string manipulation:
`absolute_path.starts_with(base_path)` guards
`absolute_path.trim_start_matches(base_path)` — Rust's `trim_start_matches`
strips the pattern from the front *repeatedly*, as long as it is a prefix —
followed by `.trim_start_matches('/')` and `.trim_start_matches('\\')`, each
of which strips every leading occurrence of that character; otherwise the
absolute path is returned unchanged. Strings are modelled as `List Char`. -/

def trimStartMatchesStrAux (pat : List Char) : Nat → List Char → List Char
  | 0, s => s
  | fuel + 1, s =>
    if pat ≠ [] ∧ pat <+: s then
      trimStartMatchesStrAux pat fuel (s.drop pat.length)
    else s

/-- Rust `str::trim_start_matches` with a string pattern: repeatedly strip the
pattern from the front while it is a prefix (the empty pattern strips
nothing). Each strip removes at least one character, so `s.length` rounds of
fuel always suffice. -/
def trimStartMatchesStr (s pat : List Char) : List Char :=
  trimStartMatchesStrAux pat s.length s

def trimStartMatchesChar (c : Char) (s : List Char) : List Char :=
  s.dropWhile (fun x => x == c)

def get_relative_path_fallback (absolute_path base_path : List Char) :
    List Char :=
  if base_path <+: absolute_path then
    trimStartMatchesChar '\\'
      (trimStartMatchesChar '/' (trimStartMatchesStr absolute_path base_path))
  else
    absolute_path

/-- Modelled from the spec: the claim's own reading of the fallback, in which
exactly *one* leading occurrence of the base path is removed before the
leading separators are trimmed. Used only to compare the claim against the
source translation `get_relative_path_fallback`. -/
def spec_relative_fallback_one_occurrence
    (absolute_path base_path : List Char) : List Char :=
  if base_path <+: absolute_path then
    trimStartMatchesChar '\\'
      (trimStartMatchesChar '/' (absolute_path.drop base_path.length))
  else
    absolute_path

/-! ## CRC32C digester (upload.rs lines 212-216)

`compute_crc32c_hash` is `crc32c::crc32c(data)` (CRC-32 with the Castagnoli
polynomial: bit-reflected algorithm, reversed polynomial `0x82F63B78`, initial
value and final xor `0xFFFFFFFF`), then `u32::to_be_bytes`, then
`base64::engine::general_purpose::STANDARD.encode` (RFC 4648 standard
alphabet, `=`-padded). -/

def crc32cPolyRev : Nat := 0x82F63B78

def crc32cStep (crc : Nat) : Nat :=
  if crc % 2 = 1 then (crc / 2) ^^^ crc32cPolyRev else crc / 2

def crc32cUpdateByte (crc b : Nat) : Nat :=
  crc32cStep^[8] (crc ^^^ b % 256)

def crc32cAux : Nat → List Nat → Nat
  | crc, [] => crc
  | crc, b :: rest => crc32cAux (crc32cUpdateByte crc b) rest

def crc32c (data : List Nat) : Nat :=
  crc32cAux 0xFFFFFFFF data ^^^ 0xFFFFFFFF

/-- `u32::to_be_bytes`: big-endian bytes of a 32-bit value. -/
def u32BeBytes (h : Nat) : List Nat :=
  [h / 2 ^ 24 % 256, h / 2 ^ 16 % 256, h / 2 ^ 8 % 256, h % 256]

/-- RFC 4648 standard base64 alphabet, as used by
`base64::engine::general_purpose::STANDARD`. -/
def b64Alphabet : List Char :=
  "ABCDEFGHIJKLMNOPQRSTUVWXYZabcdefghijklmnopqrstuvwxyz0123456789+/".toList

def b64Char (n : Nat) : Char := b64Alphabet.getD n '='

def b64CharVal (c : Char) : Nat := b64Alphabet.indexOf c

/-- Standard padded base64 encoding of a byte list. -/
def base64Encode : List Nat → List Char
  | [] => []
  | [b0] => [b64Char (b0 / 4), b64Char (b0 % 4 * 16), '=', '=']
  | [b0, b1] =>
    [b64Char (b0 / 4), b64Char (b0 % 4 * 16 + b1 / 16),
     b64Char (b1 % 16 * 4), '=']
  | b0 :: b1 :: b2 :: rest =>
    b64Char (b0 / 4) :: b64Char (b0 % 4 * 16 + b1 / 16) ::
      b64Char (b1 % 16 * 4 + b2 / 64) :: b64Char (b2 % 64) ::
      base64Encode rest

/-- Standard padded base64 decoding (the inverse direction the claim's
round-trip refers to). -/
def base64Decode : List Char → List Nat
  | c0 :: c1 :: c2 :: c3 :: rest =>
    if c2 = '=' then
      [b64CharVal c0 * 4 + b64CharVal c1 / 16]
    else if c3 = '=' then
      [b64CharVal c0 * 4 + b64CharVal c1 / 16,
       b64CharVal c1 % 16 * 16 + b64CharVal c2 / 4]
    else
      (b64CharVal c0 * 4 + b64CharVal c1 / 16) ::
        (b64CharVal c1 % 16 * 16 + b64CharVal c2 / 4) ::
        (b64CharVal c2 % 4 * 64 + b64CharVal c3) ::
        base64Decode rest
  | _ => []

/-- `compute_crc32c_hash` (upload.rs lines 212-216). -/
def compute_crc32c_hash (data : List Nat) : List Char :=
  base64Encode (u32BeBytes (crc32c data))

/-! ## Theorems -/

set_option maxRecDepth 20000 in
/-- Validation of the CRC-32C model against the published check value of the
Castagnoli CRC: the digest of the ASCII bytes of `"123456789"` is
`0xE3069283`. -/
theorem crc32c_check_value :
    crc32c ("123456789".toList.map Char.toNat) = 0xE3069283 := by decide

/-- Validation of the base64 model against RFC 4648's example: the bytes of
`"Man"` encode to `"TWFu"`. -/
theorem base64_check_value : base64Encode [77, 97, 110] = "TWFu".toList := by
  decide

/-- C10: the `current_uploading` field starts as `None` (lib.rs lines
463-468) and none of the four progress mutations in upload.rs assigns it, so
every snapshot returned by `get_upload_progress` and every `upload_progress`
payload — each of which is the progress state after some finite sequence of
those mutations — has `current_uploading = None`. -/
theorem current_uploading_always_none (ops : List ProgressOp) :
    (runProgressOps ops).current_uploading = none := by
  have key : ∀ (l : List ProgressOp) (p : UploadProgress),
      p.current_uploading = none →
      (l.foldl applyProgressOp p).current_uploading = none := by
    intro l
    induction l with
    | nil => intro p hp; simpa using hp
    | cons op rest ih =>
      intro p hp
      simp only [List.foldl_cons]
      apply ih
      cases op <;> simpa [applyProgressOp] using hp
  exact key ops initialUploadProgress rfl

/-- C5: when the batch probe fails, every item of the ready batch is pushed
back onto the queue as the very same value — retry count not incremented,
timestamp preserved — so the multiplicity of every item value grows by exactly
its multiplicity in the batch and no item is lost; the branch emits no
per-file status event and sleeps `RETRY_DELAY_SECS` (5 s). -/
theorem probe_failure_requeue_complete (q ready : List UploadItem)
    (it : UploadItem) :
    (onProbeFailure q ready).queue.count it = q.count it + ready.count it ∧
    (onProbeFailure q ready).statusEvents = [] ∧
    (onProbeFailure q ready).sleepSecs = 5 := by
  exact ⟨by simp [onProbeFailure, List.count_append], rfl, rfl⟩

/-- Every item of the ready half of a drain satisfied the readiness test. -/
theorem drainReadyAux_ready_test (nowMs delayMs : Nat) :
    ∀ (cap : Nat) (q : List UploadItem),
      ∀ it ∈ (drainReadyAux nowMs delayMs cap q).1,
        delayMs ≤ nowMs - it.timestamp * 1000 := by
  intro cap q
  induction q generalizing cap with
  | nil => simp [drainReadyAux]
  | cons x rest ih =>
    intro it hit
    match cap with
    | 0 => simp [drainReadyAux] at hit
    | cap + 1 =>
      rw [drainReadyAux] at hit
      by_cases hx : delayMs ≤ nowMs - x.timestamp * 1000
      · rw [if_pos hx] at hit
        simp only [List.mem_cons] at hit
        rcases hit with rfl | hit
        · exact hx
        · exact ih cap it hit
      · rw [if_neg hx] at hit
        exact ih (cap + 1) it hit

/-- Both halves of a drain are made of items of the input queue. -/
theorem drainReadyAux_mem (nowMs delayMs : Nat) :
    ∀ (cap : Nat) (q : List UploadItem),
      (∀ it ∈ (drainReadyAux nowMs delayMs cap q).1, it ∈ q) ∧
      (∀ it ∈ (drainReadyAux nowMs delayMs cap q).2, it ∈ q) := by
  intro cap q
  induction q generalizing cap with
  | nil => simp [drainReadyAux]
  | cons x rest ih =>
    match cap with
    | 0 => simp [drainReadyAux]
    | cap + 1 =>
      rw [drainReadyAux]
      by_cases hx : delayMs ≤ nowMs - x.timestamp * 1000
      · rw [if_pos hx]
        constructor
        · intro it hit
          simp only [List.mem_cons] at hit ⊢
          rcases hit with rfl | hit
          · exact Or.inl rfl
          · exact Or.inr ((ih cap).1 it hit)
        · intro it hit
          exact List.mem_cons_of_mem x ((ih cap).2 it hit)
      · rw [if_neg hx]
        constructor
        · intro it hit
          exact List.mem_cons_of_mem x ((ih (cap + 1)).1 it hit)
        · intro it hit
          simp only [List.mem_cons] at hit ⊢
          rcases hit with rfl | hit
          · exact Or.inl rfl
          · exact Or.inr ((ih (cap + 1)).2 it hit)

/-- C3: the scheduler's drain only removes an item as ready when
`current_time - item.timestamp * 1000 >= upload_delay_ms` holds at the moment
of the drain (upload.rs lines 636-645). For items whose timestamp, set at
their latest ingestion or retry enqueue, does not lie in the future, this is
exactly `now ≥ timestamp * 1000 + upload_delay_ms`: no item is dispatched
before the debounce window has elapsed since the enqueue that stamped it
(probe-failure re-appends restore the item with that stamp intact). -/
theorem drained_items_debounce_elapsed (nowMs delayMs : Nat)
    (q : List UploadItem)
    (hq : ∀ it ∈ q, it.timestamp * 1000 ≤ nowMs) :
    ∀ it ∈ (drainReady nowMs delayMs q).1,
      it.timestamp * 1000 + delayMs ≤ nowMs := by
  intro it hit
  have h1 := drainReadyAux_ready_test nowMs delayMs MAX_BATCH_SIZE q it hit
  have h2 := hq it ((drainReadyAux_mem nowMs delayMs MAX_BATCH_SIZE q).1 it hit)
  omega

/-- Witness for C3: a concrete ready item of a concrete drain at
`now = 2000 ms`, `upload_delay_ms = 1000`, enqueued at second 1. -/
theorem drained_items_debounce_elapsed_witness :
    (⟨"/w/a.txt", "a.txt", 1, 0⟩ : UploadItem).timestamp * 1000 + 1000
      ≤ 2000 :=
  drained_items_debounce_elapsed 2000 1000 [⟨"/w/a.txt", "a.txt", 1, 0⟩]
    (by decide) ⟨"/w/a.txt", "a.txt", 1, 0⟩ (by decide)

/-- Characterization of the retry handler's successful re-append. -/
theorem handlePutFailure_some_iff (it : UploadItem) (now : Nat)
    (it' : UploadItem) :
    handlePutFailure it now = some it' ↔
      it.retry_count + 1 < MAX_RETRY_COUNT ∧
      it' = ⟨it.path, it.relative_path, now, it.retry_count + 1⟩ := by
  by_cases hrc : it.retry_count + 1 < MAX_RETRY_COUNT
  · constructor
    · intro h
      refine ⟨hrc, ?_⟩
      have h' :
          some (⟨it.path, it.relative_path, now, it.retry_count + 1⟩ :
            UploadItem) = some it' := by
        simpa [handlePutFailure, hrc] using h
      exact (Option.some.inj h').symm
    · rintro ⟨-, rfl⟩
      simp [handlePutFailure, hrc]
  · constructor
    · intro h
      exfalso
      simp [handlePutFailure, hrc] at h
    · rintro ⟨h, -⟩
      exact absurd h hrc

/-- Strengthened induction invariant for C4: items of the queue and items in
flight all carry `retry_count < MAX_RETRY_COUNT`. -/
theorem qreachable_retry_lt (s : SchedState) (hs : QReachable s) :
    ∀ it ∈ s.queue ++ s.inflight, it.retry_count < MAX_RETRY_COUNT := by
  induction hs with
  | refl => simp
  | tail _ hstep ih =>
    cases hstep with
    | ingest q f p r now =>
      intro it hit
      simp only [ingestEnqueue, List.mem_append, List.mem_cons,
        List.not_mem_nil, or_false] at hit
      rcases hit with (hit | rfl) | hit
      · exact ih it (by
          simp only [List.mem_append]
          exact Or.inl (List.mem_of_mem_filter hit))
      · simp [MAX_RETRY_COUNT]
      · exact ih it (by simp only [List.mem_append]; tauto)
    | drain q f now delay =>
      intro it hit
      simp only [List.mem_append] at hit
      rcases hit with hit | hit | hit
      · exact ih it (by
          simp only [List.mem_append]
          exact Or.inl ((drainReadyAux_mem now delay MAX_BATCH_SIZE q).2 it hit))
      · exact ih it (by simp only [List.mem_append]; tauto)
      · exact ih it (by
          simp only [List.mem_append]
          exact Or.inl ((drainReadyAux_mem now delay MAX_BATCH_SIZE q).1 it hit))
    | requeueUnchanged q f1 f2 x =>
      intro it hit
      apply ih it
      simp only [List.mem_append, List.mem_cons, List.not_mem_nil,
        or_false] at hit ⊢
      tauto
    | finishInflight q f1 f2 x =>
      intro it hit
      apply ih it
      simp only [List.mem_append, List.mem_cons] at hit ⊢
      tauto
    | retryRequeue q f1 f2 x x' now h =>
      intro it hit
      have hx := (handlePutFailure_some_iff x now x').mp h
      simp only [List.mem_append, List.mem_cons, List.not_mem_nil,
        or_false] at hit
      rcases hit with (hit | rfl) | hit
      · exact ih it (by simp only [List.mem_append]; tauto)
      · rw [hx.2]
        exact hx.1
      · exact ih it (by
          simp only [List.mem_append, List.mem_cons]
          tauto)
    | clearQueue q f =>
      intro it hit
      apply ih it
      simp only [List.mem_append, List.not_mem_nil, false_or] at hit ⊢
      tauto

/-- C4: after a failed PUT the scheduler increments `retry_count` and
re-appends the item — with timestamp refreshed to the current time — exactly
when the incremented count is strictly below `MAX_RETRY_COUNT` (3); at 3 the
item is dropped terminally instead (upload.rs lines 779-821: `failed` status,
`total_failed` bump, no re-append). Since ingestion inserts items with
`retry_count = 0` and every other re-append path preserves the count, every
item ever present in the queue has `retry_count < 3`. -/
theorem retry_cap_invariant (s : SchedState) (hs : QReachable s) :
    (∀ (it it' : UploadItem) (now : Nat),
      handlePutFailure it now = some it' ↔
        it.retry_count + 1 < MAX_RETRY_COUNT ∧
        it' = ⟨it.path, it.relative_path, now, it.retry_count + 1⟩) ∧
    ∀ it ∈ s.queue, it.retry_count < MAX_RETRY_COUNT := by
  constructor
  · intro it it' now
    exact handlePutFailure_some_iff it now it'
  · intro it hit
    exact qreachable_retry_lt s hs it (List.mem_append.mpr (Or.inl hit))

/-- Witness for C4: the state holding one just-ingested item is reachable,
and the theorem yields the retry bound for that queue. -/
theorem retry_cap_invariant_witness :
    (⟨"/w/a.txt", "a.txt", 7, 0⟩ : UploadItem).retry_count <
      MAX_RETRY_COUNT :=
  (retry_cap_invariant ⟨[⟨"/w/a.txt", "a.txt", 7, 0⟩], []⟩
      (Relation.ReflTransGen.single
        (QStep.ingest [] [] "/w/a.txt" "a.txt" 7))).2
    ⟨"/w/a.txt", "a.txt", 7, 0⟩ (by decide)

theorem countPath_append (a b : List UploadItem) (p : String) :
    countPath (a ++ b) p = countPath a p + countPath b p := by
  simp [countPath, List.filter_append]

theorem countPath_cons (x : UploadItem) (l : List UploadItem) (p : String) :
    countPath (x :: l) p = (if x.path = p then 1 else 0) + countPath l p := by
  by_cases hx : x.path = p <;>
    simp [countPath, List.filter_cons, hx]
  omega

/-- Removing every entry of a path leaves no entry of that path and does not
raise the count of any other path. -/
theorem countPath_filter_out (q : List UploadItem) (p p' : String) :
    countPath (q.filter fun it => it.path != p) p' =
      if p' = p then 0 else countPath q p' := by
  induction q with
  | nil => simp [countPath]
  | cons x rest ih =>
    by_cases hx : x.path = p
    · have h1 : (x :: rest).filter (fun it => it.path != p) =
          rest.filter (fun it => it.path != p) := by
        simp [List.filter_cons, hx]
      rw [h1, ih, countPath_cons]
      by_cases hpp : p' = p
      · simp [hpp]
      · have hxp : ¬ x.path = p' := by
          rw [hx]
          exact fun h => hpp h.symm
        simp [hpp, hxp]
    · have h1 : (x :: rest).filter (fun it => it.path != p) =
          x :: rest.filter (fun it => it.path != p) := by
        simp [List.filter_cons, hx]
      rw [h1, countPath_cons, ih, countPath_cons]
      by_cases hpp : p' = p
      · simp [hpp, hx]
      · simp [hpp]

/-- C1 (amended part): the ingestion front-end's enqueue — evict every entry
with the same path, then append — preserves the at-most-one-item-per-path
invariant (upload.rs lines 398-405). -/
theorem ingest_enqueue_preserves_unique_paths (q : List UploadItem)
    (p r : String) (now : Nat) (hq : uniquePaths q) :
    uniquePaths (ingestEnqueue q p r now) := by
  intro p'
  unfold ingestEnqueue
  rw [countPath_append, countPath_filter_out]
  by_cases hpp : p' = p
  · subst hpp
    simp [countPath]
  · rw [if_neg hpp]
    have h1 := hq p'
    have h2 : countPath [(⟨p, r, now, 0⟩ : UploadItem)] p' = 0 := by
      simp [countPath, Ne.symm hpp]
    omega

/-- Witness for the amended C1: enqueueing into the empty queue yields a
queue with unique paths. -/
theorem ingest_enqueue_preserves_unique_paths_witness :
    uniquePaths [] ∧ uniquePaths (ingestEnqueue [] "/w/x.txt" "x.txt" 3) :=
  have hemp : uniquePaths [] := fun p => by simp [countPath]
  ⟨hemp, ingest_enqueue_preserves_unique_paths [] "/w/x.txt" "x.txt" 3 hemp⟩

/-- C1 (counterexample): path-uniqueness does *not* hold across the
scheduler's re-append paths. The re-appends (probe failure at upload.rs lines
689-693, missing URL at 735-736, retry at 793-794) are plain `push_back`s
with no eviction, and the queue mutex is released while the probe or upload
runs; so: ingest `/w/a.txt`, drain it as ready, ingest `/w/a.txt` again (the
watcher fires while the probe is in flight), then re-append the drained item
on probe failure — the reachable resulting queue holds two items with path
`/w/a.txt`. -/
theorem queue_duplicate_path_reachable :
    QReachable ⟨[⟨"/w/a.txt", "a.txt", 5, 0⟩, ⟨"/w/a.txt", "a.txt", 0, 0⟩],
      []⟩ ∧
    2 ≤ countPath
      [⟨"/w/a.txt", "a.txt", 5, 0⟩, ⟨"/w/a.txt", "a.txt", 0, 0⟩]
      "/w/a.txt" := by
  constructor
  · have h1 : QStep ⟨[], []⟩ ⟨[⟨"/w/a.txt", "a.txt", 0, 0⟩], []⟩ :=
      QStep.ingest [] [] "/w/a.txt" "a.txt" 0
    have h2 : QStep ⟨[⟨"/w/a.txt", "a.txt", 0, 0⟩], []⟩
        ⟨[], [⟨"/w/a.txt", "a.txt", 0, 0⟩]⟩ :=
      QStep.drain [⟨"/w/a.txt", "a.txt", 0, 0⟩] [] 0 0
    have h3 : QStep ⟨[], [⟨"/w/a.txt", "a.txt", 0, 0⟩]⟩
        ⟨[⟨"/w/a.txt", "a.txt", 5, 0⟩], [⟨"/w/a.txt", "a.txt", 0, 0⟩]⟩ :=
      QStep.ingest [] [⟨"/w/a.txt", "a.txt", 0, 0⟩] "/w/a.txt" "a.txt" 5
    have h4 : QStep
        ⟨[⟨"/w/a.txt", "a.txt", 5, 0⟩], [⟨"/w/a.txt", "a.txt", 0, 0⟩]⟩
        ⟨[⟨"/w/a.txt", "a.txt", 5, 0⟩, ⟨"/w/a.txt", "a.txt", 0, 0⟩], []⟩ :=
      QStep.requeueUnchanged [⟨"/w/a.txt", "a.txt", 5, 0⟩] [] []
        ⟨"/w/a.txt", "a.txt", 0, 0⟩
    exact Relation.ReflTransGen.tail
      (Relation.ReflTransGen.tail
        (Relation.ReflTransGen.tail (Relation.ReflTransGen.single h1) h2) h3)
      h4
  · decide

/-- A pair of the probe's matching pass consists of a valid (successfully
read) item and a response entry with the same relative path. -/
theorem matchResults_mem_iff (valid : List UploadItem)
    (resp : List FileCheckResult) (i : UploadItem) (r : FileCheckResult) :
    (i, r) ∈ matchResults valid resp ↔
      r ∈ resp ∧
      valid.find? (fun x => x.relative_path == r.file_name) = some i := by
  unfold matchResults
  rw [List.mem_filterMap]
  constructor
  · rintro ⟨r', hr', hmap⟩
    cases hfind : valid.find? (fun x => x.relative_path == r'.file_name) with
    | none =>
      rw [hfind] at hmap
      simp at hmap
    | some i' =>
      rw [hfind] at hmap
      have h2 : i' = i ∧ r' = r := by
        simpa [Prod.ext_iff] using hmap
      obtain ⟨rfl, rfl⟩ := h2
      exact ⟨hr', hfind⟩
  · rintro ⟨hr, hfind⟩
    exact ⟨r, hr, by rw [hfind]; rfl⟩

/-- Any matched pair satisfies: the item was read successfully, the verdict is
a response entry, and their relative paths agree. -/
theorem matchResults_mem_src (valid : List UploadItem)
    (resp : List FileCheckResult) (pr : UploadItem × FileCheckResult)
    (h : pr ∈ matchResults valid resp) :
    pr.1 ∈ valid ∧ pr.2 ∈ resp ∧ pr.1.relative_path = pr.2.file_name := by
  obtain ⟨i, r⟩ := pr
  rw [matchResults_mem_iff] at h
  refine ⟨List.mem_of_find?_eq_some h.2, h.1, ?_⟩
  have hp := List.find?_some h.2
  simpa using hp

/-- Everything the result-processing loop does is done on behalf of a matched
pair: re-appended items, spawned uploads and `exists`-path `uploaded` events
all come from pairs. -/
theorem processBatchResults_sources
    (pairs : List (UploadItem × FileCheckResult)) :
    (∀ it ∈ (processBatchResults pairs).requeued, ∃ pr ∈ pairs, pr.1 = it) ∧
    (∀ s ∈ (processBatchResults pairs).spawned, ∃ pr ∈ pairs, pr.1 = s.1) ∧
    (∀ rel ∈ (processBatchResults pairs).uploadedNow,
      ∃ pr ∈ pairs, pr.1.relative_path = rel) := by
  induction pairs with
  | nil => simp [processBatchResults]
  | cons hd rest ih =>
    obtain ⟨item, result⟩ := hd
    obtain ⟨ihr, ihs, ihu⟩ := ih
    by_cases h1 : result.status = STATUS_EXISTS
    · simp only [processBatchResults, if_pos h1]
      refine ⟨?_, ?_, ?_⟩
      · intro it hit
        obtain ⟨pr, hpr, he⟩ := ihr it hit
        exact ⟨pr, List.mem_cons_of_mem _ hpr, he⟩
      · intro s hs
        obtain ⟨pr, hpr, he⟩ := ihs s hs
        exact ⟨pr, List.mem_cons_of_mem _ hpr, he⟩
      · intro rel hrel
        rw [List.mem_cons] at hrel
        rcases hrel with rfl | hrel
        · exact ⟨(item, result), List.mem_cons_self _ _, rfl⟩
        · obtain ⟨pr, hpr, he⟩ := ihu rel hrel
          exact ⟨pr, List.mem_cons_of_mem _ hpr, he⟩
    · by_cases h2 : result.status = STATUS_NEEDS_UPLOAD
      · cases hurl : result.upload_url with
        | none =>
          simp only [processBatchResults, if_neg h1, if_pos h2, hurl]
          refine ⟨?_, ?_, ?_⟩
          · intro it hit
            rw [List.mem_cons] at hit
            rcases hit with rfl | hit
            · exact ⟨(it, result), List.mem_cons_self _ _, rfl⟩
            · obtain ⟨pr, hpr, he⟩ := ihr it hit
              exact ⟨pr, List.mem_cons_of_mem _ hpr, he⟩
          · intro s hs
            obtain ⟨pr, hpr, he⟩ := ihs s hs
            exact ⟨pr, List.mem_cons_of_mem _ hpr, he⟩
          · intro rel hrel
            obtain ⟨pr, hpr, he⟩ := ihu rel hrel
            exact ⟨pr, List.mem_cons_of_mem _ hpr, he⟩
        | some url =>
          simp only [processBatchResults, if_neg h1, if_pos h2, hurl]
          refine ⟨?_, ?_, ?_⟩
          · intro it hit
            obtain ⟨pr, hpr, he⟩ := ihr it hit
            exact ⟨pr, List.mem_cons_of_mem _ hpr, he⟩
          · intro s hs
            rw [List.mem_cons] at hs
            rcases hs with rfl | hs
            · exact ⟨(item, result), List.mem_cons_self _ _, rfl⟩
            · obtain ⟨pr, hpr, he⟩ := ihs s hs
              exact ⟨pr, List.mem_cons_of_mem _ hpr, he⟩
          · intro rel hrel
            obtain ⟨pr, hpr, he⟩ := ihu rel hrel
            exact ⟨pr, List.mem_cons_of_mem _ hpr, he⟩
      · simp only [processBatchResults, if_neg h1, if_neg h2]
        refine ⟨?_, ?_, ?_⟩
        · intro it hit
          obtain ⟨pr, hpr, he⟩ := ihr it hit
          exact ⟨pr, List.mem_cons_of_mem _ hpr, he⟩
        · intro s hs
          obtain ⟨pr, hpr, he⟩ := ihs s hs
          exact ⟨pr, List.mem_cons_of_mem _ hpr, he⟩
        · intro rel hrel
          obtain ⟨pr, hpr, he⟩ := ihu rel hrel
          exact ⟨pr, List.mem_cons_of_mem _ hpr, he⟩

/-- C9: the batch probe pairs each entry of the server's response with the
*first* successfully-read item whose `relative_path` equals the entry's
`file_name` (upload.rs lines 318-326), and a successfully-read item whose
relative path appears in no response entry is in no pair — so the scheduler's
result loop (upload.rs lines 700-832) re-enqueues nothing for it, spawns no
upload for it, and emits no status event on its relative path: the item is
silently dropped. -/
theorem batch_pairing_first_match_and_drop (valid : List UploadItem)
    (resp : List FileCheckResult) (item : UploadItem)
    (_hmem : item ∈ valid)
    (hnone : ∀ r ∈ resp, r.file_name ≠ item.relative_path) :
    (∀ (i : UploadItem) (r : FileCheckResult),
      ((i, r) ∈ matchResults valid resp ↔
        r ∈ resp ∧
        valid.find? (fun x => x.relative_path == r.file_name) = some i)) ∧
    (∀ pr ∈ matchResults valid resp,
      pr.1.relative_path ≠ item.relative_path) ∧
    item ∉ (processBatchResults (matchResults valid resp)).requeued ∧
    (∀ s ∈ (processBatchResults (matchResults valid resp)).spawned,
      s.1.relative_path ≠ item.relative_path) ∧
    item.relative_path ∉
      (processBatchResults (matchResults valid resp)).uploadedNow := by
  have hpair : ∀ pr ∈ matchResults valid resp,
      pr.1.relative_path ≠ item.relative_path := by
    intro pr hpr
    have h := matchResults_mem_src valid resp pr hpr
    rw [h.2.2]
    exact hnone pr.2 h.2.1
  refine ⟨fun i r => matchResults_mem_iff valid resp i r, hpair, ?_, ?_, ?_⟩
  · intro hit
    obtain ⟨pr, hpr, he⟩ := (processBatchResults_sources _).1 item hit
    exact hpair pr hpr (by rw [he])
  · intro s hs
    obtain ⟨pr, hpr, he⟩ := (processBatchResults_sources _).2.1 s hs
    rw [← he]
    exact hpair pr hpr
  · intro hrel
    obtain ⟨pr, hpr, he⟩ :=
      (processBatchResults_sources _).2.2 item.relative_path hrel
    exact hpair pr hpr he

/-- Witness for C9: a concrete valid item whose relative path matches no
response entry ends up outside the re-enqueued list. -/
theorem batch_pairing_first_match_and_drop_witness :
    (⟨"/w/b.txt", "b.txt", 0, 0⟩ : UploadItem) ∉
      (processBatchResults (matchResults [⟨"/w/b.txt", "b.txt", 0, 0⟩]
        [⟨"c.txt", none, "exists", "id-c", none⟩])).requeued :=
  (batch_pairing_first_match_and_drop [⟨"/w/b.txt", "b.txt", 0, 0⟩]
    [⟨"c.txt", none, "exists", "id-c", none⟩]
    ⟨"/w/b.txt", "b.txt", 0, 0⟩ (by decide) (by decide)).2.2.1

/-- C2 (amended part): an item whose file read fails during the batch probe
joins neither `valid_items` nor the request body (upload.rs lines 234-253),
so when the probe request itself succeeds the item is in no returned pair and
the result loop neither re-enqueues it nor spawns an upload for it — no
retry, no status event, silently dropped. (It reaches the queue again only if
the whole probe fails, which re-appends the entire original batch, or if
something re-enqueues its path.) -/
theorem read_failure_item_excluded (readOk : String → Bool)
    (items : List UploadItem) (resp : List FileCheckResult)
    (item : UploadItem) (_hmem : item ∈ items)
    (hread : readOk item.path = false) :
    item ∉ probeValidItems readOk items ∧
    (∀ pr ∈ matchResults (probeValidItems readOk items) resp, pr.1 ≠ item) ∧
    item ∉ (processBatchResults
      (matchResults (probeValidItems readOk items) resp)).requeued ∧
    (∀ s ∈ (processBatchResults
      (matchResults (probeValidItems readOk items) resp)).spawned,
      s.1 ≠ item) := by
  have hval : item ∉ probeValidItems readOk items := by
    intro h
    have hp := List.of_mem_filter h
    rw [hread] at hp
    exact Bool.false_ne_true hp
  have hpair : ∀ pr ∈ matchResults (probeValidItems readOk items) resp,
      pr.1 ≠ item := by
    intro pr hpr heq
    exact hval (heq ▸ (matchResults_mem_src _ _ pr hpr).1)
  refine ⟨hval, hpair, ?_, ?_⟩
  · intro hit
    obtain ⟨pr, hpr, he⟩ := (processBatchResults_sources _).1 item hit
    exact hpair pr hpr he
  · intro s hs heq
    obtain ⟨pr, hpr, he⟩ := (processBatchResults_sources _).2.1 s hs
    exact hpair pr hpr (he.trans heq)

/-- C2 (counterexample): with a concrete batch of two items in which
`/w/a.txt` fails to read and the probe succeeds with a verdict for the other
item only, the read-failed item is excluded from the valid set, the pairs
cover only `/w/b.txt`, and the result processing re-enqueues nothing, spawns
nothing and marks only `b.txt` uploaded — nothing at all happens for the
read-failed item, contradicting the claim that it is re-enqueued or otherwise
retried. -/
theorem read_failure_item_dropped_concrete :
    probeValidItems (fun p => p != "/w/a.txt")
      [⟨"/w/a.txt", "a.txt", 0, 0⟩, ⟨"/w/b.txt", "b.txt", 0, 0⟩] =
      [⟨"/w/b.txt", "b.txt", 0, 0⟩] ∧
    matchResults [⟨"/w/b.txt", "b.txt", 0, 0⟩]
      [⟨"b.txt", some "h", "exists", "id-b", none⟩] =
      [(⟨"/w/b.txt", "b.txt", 0, 0⟩,
        ⟨"b.txt", some "h", "exists", "id-b", none⟩)] ∧
    (processBatchResults [(⟨"/w/b.txt", "b.txt", 0, 0⟩,
      ⟨"b.txt", some "h", "exists", "id-b", none⟩)]).requeued = [] ∧
    (processBatchResults [(⟨"/w/b.txt", "b.txt", 0, 0⟩,
      ⟨"b.txt", some "h", "exists", "id-b", none⟩)]).spawned = [] ∧
    (processBatchResults [(⟨"/w/b.txt", "b.txt", 0, 0⟩,
      ⟨"b.txt", some "h", "exists", "id-b", none⟩)]).uploadedNow =
      ["b.txt"] := by
  decide

/-- Witness for the amended C2 at the counterexample's concrete input. -/
theorem read_failure_item_excluded_witness :
    (⟨"/w/a.txt", "a.txt", 0, 0⟩ : UploadItem) ∉
      probeValidItems (fun p => p != "/w/a.txt")
        [⟨"/w/a.txt", "a.txt", 0, 0⟩, ⟨"/w/b.txt", "b.txt", 0, 0⟩] :=
  (read_failure_item_excluded (fun p => p != "/w/a.txt")
    [⟨"/w/a.txt", "a.txt", 0, 0⟩, ⟨"/w/b.txt", "b.txt", 0, 0⟩]
    [⟨"b.txt", some "h", "exists", "id-b", none⟩]
    ⟨"/w/a.txt", "a.txt", 0, 0⟩ (by decide) (by decide)).1

/-- `should_ignore_file` returns `true` exactly when some pattern parses and
matches. -/
theorem should_ignore_file_iff {P : Type} (parse : String → Option P)
    (pmatch : P → String → Bool) (file_path : String)
    (patterns : List String) :
    should_ignore_file parse pmatch file_path patterns = true ↔
      ∃ pattern ∈ patterns, ∃ g, parse pattern = some g ∧
        pmatch g file_path = true := by
  induction patterns with
  | nil => simp [should_ignore_file]
  | cons pattern rest ih =>
    rw [should_ignore_file]
    cases hp : parse pattern with
    | none =>
      rw [ih]
      constructor
      · rintro ⟨pat, hpat, g, hg, hm⟩
        exact ⟨pat, List.mem_cons_of_mem _ hpat, g, hg, hm⟩
      · rintro ⟨pat, hpat, g, hg, hm⟩
        rw [List.mem_cons] at hpat
        rcases hpat with rfl | hpat
        · rw [hp] at hg
          exact absurd hg (Option.noConfusion)
        · exact ⟨pat, hpat, g, hg, hm⟩
    | some g =>
      dsimp only
      by_cases hm : pmatch g file_path
      · rw [if_pos hm]
        constructor
        · intro _
          exact ⟨pattern, List.mem_cons_self _ _, g, hp, hm⟩
        · intro _
          rfl
      · rw [if_neg hm, ih]
        constructor
        · rintro ⟨pat, hpat, g', hg', hm'⟩
          exact ⟨pat, List.mem_cons_of_mem _ hpat, g', hg', hm'⟩
        · rintro ⟨pat, hpat, g', hg', hm'⟩
          rw [List.mem_cons] at hpat
          rcases hpat with rfl | hpat
          · rw [hp] at hg'
            have hgg : g = g' := Option.some.inj hg'
            exact absurd (hgg ▸ hm') hm
          · exact ⟨pat, hpat, g', hg', hm'⟩

/-- C8: the ignore matcher returns `true` iff some configured pattern is a
syntactically valid glob that matches the relative path (upload.rs lines
170-179; `glob::Pattern::new` and `Pattern::matches` enter as the abstract
`parse`/`pmatch`); consequently the result is unchanged under any permutation
of the pattern list, and a pattern that fails to parse never causes an error
or a match — prepending it leaves the result untouched. -/
theorem should_ignore_file_semantics {P : Type} (parse : String → Option P)
    (pmatch : P → String → Bool) (file_path : String)
    (patterns patterns' : List String) (bad : String)
    (hperm : patterns.Perm patterns') (hbad : parse bad = none) :
    (should_ignore_file parse pmatch file_path patterns = true ↔
      ∃ pattern ∈ patterns, ∃ g, parse pattern = some g ∧
        pmatch g file_path = true) ∧
    should_ignore_file parse pmatch file_path patterns =
      should_ignore_file parse pmatch file_path patterns' ∧
    should_ignore_file parse pmatch file_path (bad :: patterns) =
      should_ignore_file parse pmatch file_path patterns := by
  refine ⟨should_ignore_file_iff parse pmatch file_path patterns, ?_, ?_⟩
  · have h1 := should_ignore_file_iff parse pmatch file_path patterns
    have h2 := should_ignore_file_iff parse pmatch file_path patterns'
    have hiff : (∃ pattern ∈ patterns, ∃ g, parse pattern = some g ∧
        pmatch g file_path = true) ↔
        ∃ pattern ∈ patterns', ∃ g, parse pattern = some g ∧
          pmatch g file_path = true := by
      constructor
      · rintro ⟨pat, hpat, hg⟩
        exact ⟨pat, hperm.mem_iff.mp hpat, hg⟩
      · rintro ⟨pat, hpat, hg⟩
        exact ⟨pat, hperm.mem_iff.mpr hpat, hg⟩
    cases hb : should_ignore_file parse pmatch file_path patterns with
    | false =>
      cases hb' : should_ignore_file parse pmatch file_path patterns' with
      | false => rfl
      | true =>
        exfalso
        rw [hb] at h1
        rw [hb'] at h2
        have := h1.mpr (hiff.mpr (h2.mp rfl))
        exact Bool.false_ne_true this
    | true =>
      cases hb' : should_ignore_file parse pmatch file_path patterns' with
      | false =>
        exfalso
        rw [hb] at h1
        rw [hb'] at h2
        have := h2.mpr (hiff.mp (h1.mp rfl))
        exact Bool.false_ne_true this
      | true => rfl
  · rw [should_ignore_file, hbad]

/-- Witness for C8: concrete parse/match functions, a concrete permutation
and a concrete invalid pattern; the matcher flags `"a.tmp"`. -/
theorem should_ignore_file_semantics_witness :
    should_ignore_file
      (fun s => if s = "bad[" then none else some s)
      (fun g p => g == p) "a.tmp" ["a.tmp", "x"] = true :=
  ((should_ignore_file_semantics
      (fun s => if s = "bad[" then none else some s)
      (fun g p => g == p) "a.tmp" ["a.tmp", "x"] ["x", "a.tmp"] "bad["
      (by decide) (by decide)).1).mpr
    ⟨"a.tmp", by decide, "a.tmp", rfl, by decide⟩

/-- The strip of an empty string is empty, whatever the fuel. -/
theorem trimAux_nil (pat : List Char) (fuel : Nat) :
    trimStartMatchesStrAux pat fuel [] = [] := by
  cases fuel with
  | zero => rfl
  | succ m =>
    rw [trimStartMatchesStrAux, if_neg]
    rintro ⟨hne, hpre⟩
    exact hne (List.eq_nil_of_prefix_nil hpre)

/-- Fuel beyond `s.length` does not change `trimStartMatchesStrAux`. -/
theorem trimAux_fuel_irrel (pat : List Char) :
    ∀ (fuel fuel' : Nat) (s : List Char), s.length ≤ fuel →
      s.length ≤ fuel' →
      trimStartMatchesStrAux pat fuel s = trimStartMatchesStrAux pat fuel' s := by
  intro fuel
  induction fuel with
  | zero =>
    intro fuel' s hs _
    have hnil : s = [] := List.length_eq_zero.mp (Nat.le_zero.mp hs)
    subst hnil
    rw [trimAux_nil, trimAux_nil]
  | succ n ih =>
    intro fuel' s hs hs'
    cases fuel' with
    | zero =>
      have hnil : s = [] := List.length_eq_zero.mp (Nat.le_zero.mp hs')
      subst hnil
      rw [trimAux_nil, trimAux_nil]
    | succ m =>
      rw [trimStartMatchesStrAux, trimStartMatchesStrAux]
      by_cases hc : pat ≠ [] ∧ pat <+: s
      · rw [if_pos hc, if_pos hc]
        have h1 : 0 < pat.length := List.length_pos.mpr hc.1
        have h2 : pat.length ≤ s.length := hc.2.length_le
        apply ih
        · simp only [List.length_drop]
          omega
        · simp only [List.length_drop]
          omega
      · rw [if_neg hc, if_neg hc]

/-- One unfolding of the repeated strip when the pattern is a nonempty
prefix. -/
theorem trimStr_step (s pat : List Char) (h : pat ≠ [] ∧ pat <+: s) :
    trimStartMatchesStr s pat =
      trimStartMatchesStr (s.drop pat.length) pat := by
  cases s with
  | nil => exact absurd (List.eq_nil_of_prefix_nil h.2) h.1
  | cons x s2 =>
    show trimStartMatchesStrAux pat (x :: s2).length (x :: s2) = _
    rw [List.length_cons, trimStartMatchesStrAux, if_pos h]
    have h1 : 0 < pat.length := List.length_pos.mpr h.1
    apply trimAux_fuel_irrel
    · simp only [List.length_drop, List.length_cons]
      omega
    · exact Nat.le_refl _

/-- When the pattern is not a prefix nothing is stripped. -/
theorem trimStr_no_prefix (s pat : List Char) (h : ¬ pat <+: s) :
    trimStartMatchesStr s pat = s := by
  cases s with
  | nil => rfl
  | cons x s2 =>
    show trimStartMatchesStrAux pat (x :: s2).length (x :: s2) = x :: s2
    rw [List.length_cons, trimStartMatchesStrAux, if_neg]
    rintro ⟨-, hpre⟩
    exact h hpre

/-- The repeated strip removes every leading copy of the base. -/
theorem trimStr_join_replicate (base rest : List Char) (hb : base ≠ [])
    (hr : ¬ base <+: rest) :
    ∀ k, trimStartMatchesStr ((List.replicate k base).flatten ++ rest) base =
      rest := by
  intro k
  induction k with
  | zero => simpa using trimStr_no_prefix rest base hr
  | succ n ih =>
    rw [List.replicate_succ, List.flatten_cons, List.append_assoc]
    rw [trimStr_step _ _ ⟨hb, List.prefix_append _ _⟩]
    rw [List.drop_left]
    exact ih

/-- C7 (counterexample): with base `"/a"` and absolute path `"/a/a/x"`, both
canonicalizations failing, the fallback of `get_relative_path` returns `"x"`
— Rust's `trim_start_matches` removes the base prefix *repeatedly* — while
the claim's reading, removing exactly one leading occurrence of the base,
would return `"a/x"`. -/
theorem relative_fallback_strips_repeatedly :
    get_relative_path_fallback ("/a/a/x".toList) ("/a".toList) =
      "x".toList ∧
    spec_relative_fallback_one_occurrence ("/a/a/x".toList) ("/a".toList) =
      "a/x".toList ∧
    get_relative_path_fallback ("/a/a/x".toList) ("/a".toList) ≠
      spec_relative_fallback_one_occurrence ("/a/a/x".toList)
        ("/a".toList) := by
  decide

/-- C7 (amended): when canonicalization fails, the fallback of
`get_relative_path` behaves as follows — if the absolute path starts with the
base path, *every* leading occurrence of the base path is removed and then
every leading forward slash and every leading backslash is trimmed; if it
does not start with the base path, the absolute path is returned unchanged
(upload.rs lines 198-207). -/
theorem relative_fallback_characterization (base rest abs2 base2 : List Char)
    (k : Nat) (hb : base ≠ []) (hr : ¬ base <+: rest)
    (h2 : ¬ base2 <+: abs2) :
    get_relative_path_fallback ((List.replicate (k + 1) base).flatten ++ rest)
        base =
      trimStartMatchesChar '\\' (trimStartMatchesChar '/' rest) ∧
    get_relative_path_fallback abs2 base2 = abs2 := by
  constructor
  · unfold get_relative_path_fallback
    rw [if_pos, trimStr_join_replicate base rest hb hr (k + 1)]
    rw [List.replicate_succ, List.flatten_cons, List.append_assoc]
    exact List.prefix_append _ _
  · unfold get_relative_path_fallback
    rw [if_neg h2]

/-- Witness for the amended C7, at a non-prefix pair of concrete paths. -/
theorem relative_fallback_characterization_witness :
    get_relative_path_fallback ("b".toList) ("/w".toList) = "b".toList :=
  (relative_fallback_characterization ("/a".toList) ("/x".toList)
    ("b".toList) ("/w".toList) 1 (by decide) (by decide) (by decide)).2

/-- The alphabet lookup inverts the index for every sextet value. -/
theorem b64CharVal_b64Char : ∀ n, n < 64 → b64CharVal (b64Char n) = n := by
  decide

/-- No sextet value encodes to the padding character. -/
theorem b64Char_ne_pad : ∀ n, n < 64 → b64Char n ≠ '=' := by decide

/-- Base64 round-trip on an arbitrary 4-byte group. -/
theorem base64_roundtrip4 (a b c d : Nat) (ha : a < 256) (hb : b < 256)
    (hc : c < 256) (hd : d < 256) :
    base64Decode (base64Encode [a, b, c, d]) = [a, b, c, d] := by
  have henc : base64Encode [a, b, c, d] =
      [b64Char (a / 4), b64Char (a % 4 * 16 + b / 16),
       b64Char (b % 16 * 4 + c / 64), b64Char (c % 64),
       b64Char (d / 4), b64Char (d % 4 * 16), '=', '='] := rfl
  rw [henc, base64Decode]
  rw [if_neg (b64Char_ne_pad _ (by omega))]
  rw [if_neg (b64Char_ne_pad _ (by omega))]
  rw [base64Decode]
  rw [if_pos rfl]
  rw [b64CharVal_b64Char _ (by omega), b64CharVal_b64Char _ (by omega),
      b64CharVal_b64Char _ (by omega), b64CharVal_b64Char _ (by omega),
      b64CharVal_b64Char _ (by omega), b64CharVal_b64Char _ (by omega)]
  simp only [List.cons.injEq, and_true]
  refine ⟨by omega, by omega, by omega, by omega⟩

/-- C6: for every byte sequence, `compute_crc32c_hash` produces the base64
encoding of the 4-byte big-endian serialization of the CRC-32C digest
(upload.rs lines 212-216), and base64-decoding that string returns exactly
those 4 big-endian bytes. -/
theorem crc32c_hash_base64_roundtrip (data : List Nat) :
    compute_crc32c_hash data = base64Encode (u32BeBytes (crc32c data)) ∧
    base64Decode (compute_crc32c_hash data) = u32BeBytes (crc32c data) := by
  refine ⟨rfl, ?_⟩
  unfold compute_crc32c_hash u32BeBytes
  exact base64_roundtrip4 _ _ _ _ (Nat.mod_lt _ (by omega))
    (Nat.mod_lt _ (by omega)) (Nat.mod_lt _ (by omega))
    (Nat.mod_lt _ (by omega))

end SyncTauri
